import Mathlib

/-!
Shallow embedding of the MarsShrine SL-Flask bridge (src/app.py and
src/app_cf_1757118289.py): session memory, prompt assembly, profile
resolution, reply clipping and the per-request chat control flow.
Text is modelled as lists of characters (Python str semantics: len,
slicing, lower, strip act on code points).
-/

abbrev Str := List Char

/-- Python s.lower(), character-wise. -/
def lowerStr (s : Str) : Str := s.map Char.toLower

/-- Python s.strip(): remove leading and trailing whitespace. -/
def stripStr (s : Str) : Str :=
  ((s.dropWhile Char.isWhitespace).reverse.dropWhile Char.isWhitespace).reverse

/-- One chat message, as the dicts {"role": ..., "content": ...} in the source. -/
structure Msg where
  role : Str
  content : Str
deriving DecidableEq

def userRole : Str := "user".toList

def assistantRole : Str := "assistant".toList

/-- Total character count over a message list (sum of len(content)). -/
def totalChars (msgs : List Msg) : Nat := (msgs.map (fun m => m.content.length)).sum

/-- Python slicing l[-n:]: the last n elements (all of l when n >= len(l)). -/
def lastN {α : Type} (n : Nat) (l : List α) : List α := l.drop (l.length - n)

/-- Generic association-list lookup modelling Python dict access
(dict keys are unique, so first match is the match). -/
def lookupA {α : Type} : List (Str × α) → Str → Option α
  | [], _ => none
  | kv :: rest, k => if kv.1 = k then some kv.2 else lookupA rest k

/-! ## History pruning (src/app.py lines 174-189, `_apply_memory`)

The loop `for m in hist: total += len(c); if total > MEMORY_MAX_CHARS: break;
pruned.append(m)` keeps the longest chronological PREFIX of the windowed
history whose cumulative content length fits the cap. -/

def pruneBudget (cap : Nat) : Nat → List Msg → List Msg
  | _, [] => []
  | total, m :: rest =>
    if cap < total + m.content.length then []
    else m :: pruneBudget cap (total + m.content.length) rest

/-- src/app.py `_apply_memory(messages, sid, turns, use_memory_flag)` with the
session deque passed explicitly and MEMORY_MAX_CHARS as `cap`. -/
def applyMemory (messages dq : List Msg) (turns cap : Nat) (useMemory : Bool) : List Msg :=
  if useMemory then
    let needed := min dq.length (2 * turns)
    let hist := lastN needed dq
    pruneBudget cap 0 hist ++ messages
  else messages

/-- The history portion `recent(sid, turns, cap)` actually computes:
count-bounded window, then the oldest-first greedy budget prune. -/
def recentMem (dq : List Msg) (turns cap : Nat) : List Msg :=
  pruneBudget cap 0 (lastN (min dq.length (2 * turns)) dq)

/-- Follows the SPEC words for claim C3 (not the source): the already
count-bounded window is "truncated from the oldest end" so that the
cumulative length fits the budget, i.e. the maximal newest SUFFIX that
fits is kept. Used only to compare against the source behaviour. -/
def recentSpec (dq : List Msg) (turns cap : Nat) : List Msg :=
  let w := lastN (min dq.length (2 * turns)) dq
  (pruneBudget cap 0 w.reverse).reverse

/-! ## Persistent variant (src/app_cf_1757118289.py) -/

/-- The in-memory cache for one session together with the durable (SQLite)
rows for that session, both in chronological order. -/
structure MemState where
  cache : List Msg
  db : List Msg
deriving DecidableEq

/-- src/app_cf_1757118289.py lines 167-186, `_db_fetch_recent`: SELECT the
newest `2*max(1,turns)*3` rows, put them in chronological order, then keep
the maximal newest suffix whose cumulative length fits `cap`. -/
def dbFetchRecent (db : List Msg) (turns cap : Nat) : List Msg :=
  let limited := lastN (2 * max 1 turns * 3) db
  (pruneBudget cap 0 limited.reverse).reverse

/-- src/app_cf_1757118289.py lines 286-305, `_apply_memory`: on a cold start
(empty cache, persistence on) the history is read from the durable store,
but the cache is NOT written; the state is returned unchanged. -/
def applyMemoryCF (messages : List Msg) (st : MemState) (turns cap : Nat)
    (persist useMemory : Bool) : List Msg × MemState :=
  if useMemory then
    let hist0 := st.cache
    let hist1 := if hist0 = [] ∧ persist = true then dbFetchRecent st.db turns cap else hist0
    let needed := min hist1.length (2 * turns)
    let hist2 := lastN needed hist1
    (pruneBudget cap 0 hist2 ++ messages, st)
  else (messages, st)

/-- src/app_cf_1757118289.py lines 188-210, `_db_trim_to_limits`, the
per-row keep/delete decision: rows are visited newest-first; a row is kept
when fewer than `keep` rows are kept so far AND it still fits the char cap,
otherwise it is deleted. Arguments: kept-so-far, total-so-far, row content
lengths newest-first. Returns the keep flags, newest-first. -/
def trimFlags (keep cap : Nat) : Nat → Nat → List Nat → List Bool
  | _, _, [] => []
  | kept, total, ln :: rest =>
    if keep ≤ kept ∨ cap < total + ln then false :: trimFlags keep cap kept total rest
    else true :: trimFlags keep cap (kept + 1) (total + ln) rest

/-- `_db_trim_to_limits` over chronological rows (content lengths, oldest
first): the chronological keep flags. -/
def dbTrimToLimits (rows : List Nat) (turns cap : Nat) : List Bool :=
  (trimFlags (2 * max 1 turns) cap 0 0 rows.reverse).reverse

/-! ## Reply clipping and history push -/

/-- src/app.py lines 92-94, `_clip`: replies longer than `limit` become the
first `limit-3` characters followed by "...". -/
def clip (s : Str) (limit : Nat) : Str :=
  if limit < s.length then s.take (limit - 3) ++ "...".toList else s

/-- One `deque.append` with maxlen `m`: evicts from the left when full. -/
def dequeAppend (l : List Msg) (m : Nat) (x : Msg) : List Msg :=
  let l2 := l ++ [x]
  if m < l2.length then l2.drop (l2.length - m) else l2

/-- src/app.py lines 191-198, `_push_history`: resize the deque to
`2*max(1,turns)` (a resize keeps the newest entries), then append the user
turn and the assistant turn. Returns (new deque, new maxlen). -/
def pushHistory (dq : List Msg) (dqMaxlen : Nat) (u a : Str) (turns : Nat) :
    List Msg × Nat :=
  let target := 2 * max 1 turns
  let dq2 := if dqMaxlen ≠ target then lastN target dq else dq
  let dq3 := dequeAppend dq2 target ⟨userRole, u⟩
  let dq4 := dequeAppend dq3 target ⟨assistantRole, a⟩
  (dq4, target)

/-! ## Chat control flow (src/app.py lines 306-373, `chat`) -/

/-- Outcome of `mars_chat`: either (reply, None) or (None, err). -/
inductive UpstreamOutcome where
  | success (reply : Str)
  | failure (err : Str)
deriving DecidableEq

/-- The JSON response body fields relevant to the claims. -/
structure ChatResult where
  ok : Bool
  reply : Str
  mode : Str
  marsError : Option Str
deriving DecidableEq

/-- The f-string `f"[ECHO] {speaker+': ' if speaker else ''}{message}"`. -/
def echoReply (speaker message : Str) : Str :=
  "[ECHO] ".toList ++ (if speaker = [] then [] else speaker ++ ": ".toList) ++ message

/-- src/app.py lines 350-373: the tail of the `chat` handler, from the
upstream call onward. On success the reply is clipped and the user and
clipped-assistant turns are pushed; on failure the echo fallback is built,
clipped, and the history is untouched. Returns (response, history, maxlen). -/
def chatCore (message speaker : Str) (up : UpstreamOutcome) (dq : List Msg)
    (dqMaxlen turns : Nat) : ChatResult × List Msg × Nat :=
  match up with
  | .success r =>
      let reply := clip r 900
      let pushed := pushHistory dq dqMaxlen message reply turns
      (⟨true, reply, "mars".toList, none⟩, pushed.1, pushed.2)
  | .failure e =>
      (⟨true, clip (echoReply speaker message) 900, "echo".toList, some e⟩, dq, dqMaxlen)

/-! ## Profile resolution (src/app.py lines 100-156, `_resolve_profile`) -/

/-- A JSON value as far as `_resolve_profile` inspects payload fields. -/
inductive PyVal where
  | vnone
  | vbool (b : Bool)
  | vstr (s : Str)
  | vint (n : Int)
deriving DecidableEq

/-- A structured profile object: the five optional text fields, the
`parameters` sub-dict (only string-or-absent keys matter) and the
`memory.turns` override (already int-coerced as the source does). -/
structure ProfileObj where
  system : Option Str
  backstory : Option Str
  style : Option Str
  rules : Option Str
  memoryHint : Option Str
  parameters : List (Str × PyVal)
  memTurns : Option Int
deriving DecidableEq

/-- A PROFILE_MAP entry: a bare string, a structured object, or any other
JSON value (which the source answers with ("", {})). -/
inductive ProfileSrc where
  | pstr (s : Str)
  | pobj (o : ProfileObj)
  | pother
deriving DecidableEq

/-- The server configuration read from the environment at startup. -/
structure Env where
  PROFILE_MAP : List (Str × ProfileSrc)
  DEFAULT_PROFILE : Str
  MARS_SYSTEM : Str
deriving DecidableEq

/-- The request-scoped inputs `_resolve_profile` reads: payload
"use_system", payload "profile", query arg "profile", query arg "sys". -/
structure ReqCtx where
  useSystem : PyVal
  payloadProfile : Option Str
  argProfile : Option Str
  argSys : Str
deriving DecidableEq

/-- `isinstance(use_system, str) and use_system.lower() in ("0","false","off","no")`. -/
def isFalsyStr (v : PyVal) : Bool :=
  match v with
  | .vstr s =>
      decide (lowerStr s = "0".toList) || decide (lowerStr s = "false".toList) ||
      decide (lowerStr s = "off".toList) || decide (lowerStr s = "no".toList)
  | _ => false

/-- Python `a or b or ""` over the two optional profile keys. -/
def orDefault (o : Option Str) : Str :=
  match o with
  | some t => t
  | none => []

def firstTruthy (a b : Option Str) : Str :=
  match a with
  | some s => if s = [] then orDefault b else s
  | none => orDefault b

/-- The non-empty stripped text fields of a profile object, in the fixed
field order system, backstory, style, rules, memory_hint. -/
def profileParts (o : ProfileObj) : List Str :=
  ([o.system, o.backstory, o.style, o.rules, o.memoryHint]).filterMap
    (fun t => match t with
      | some s => if stripStr s = [] then none else some (stripStr s)
      | none => none)

def overrideKeys : List Str :=
  ["temperature", "frequency_penalty", "presence_penalty", "repetition_penalty",
    "max_tokens"].map (fun s => s.toList)

/-- The sparse overrides dict: the parameter keys actually present, in the
source's fixed iteration order, plus memory_turns when `memory.turns` exists. -/
def buildOverrides (o : ProfileObj) : List (Str × PyVal) :=
  (overrideKeys.filterMap (fun k => (lookupA o.parameters k).map (fun v => (k, v)))) ++
  (match o.memTurns with
   | some n => [("memory_turns".toList, PyVal.vint n)]
   | none => [])

/-- What `_resolve_profile` makes of a selected PROFILE_MAP entry. -/
def renderSource (src : ProfileSrc) : Str × List (Str × PyVal) :=
  match src with
  | .pstr s => (s, [])
  | .pobj o => (List.intercalate "\n\n".toList (profileParts o), buildOverrides o)
  | .pother => ([], [])

/-- src/app.py lines 100-156 / src/app_cf_1757118289.py lines 222-269,
`_resolve_profile`: kill-switch first, then requested key, then
DEFAULT_PROFILE, then MARS_SYSTEM, else empty. -/
def resolveProfile (env : Env) (req : ReqCtx) : Str × List (Str × PyVal) :=
  if isFalsyStr req.useSystem = true then ([], [])
  else if req.useSystem = PyVal.vbool false ∨ lowerStr req.argSys = "off".toList then ([], [])
  else
    let key := stripStr (firstTruthy req.payloadProfile req.argProfile)
    let fromKey : Option ProfileSrc :=
      if key ≠ [] then lookupA env.PROFILE_MAP key else none
    match fromKey with
    | some src => renderSource src
    | none =>
      match (if env.DEFAULT_PROFILE ≠ [] then lookupA env.PROFILE_MAP env.DEFAULT_PROFILE
             else none) with
      | some src => renderSource src
      | none => if env.MARS_SYSTEM ≠ [] then (env.MARS_SYSTEM, []) else ([], [])

/-! ## StickyStore

Modelled from the spec: no StickyStore exists anywhere under src/ (neither
file parses `[[remember: ...]]` / `[[state: ...]]` directives). The
definitions below follow the spec's words in section 4.1 only. -/

def isIdentChar (c : Char) : Bool := c.isAlphanum || c = '_'

/-- Modelled from the spec: the value of a directive is "any text up to the
closing marker"; returns (value chars, rest after the "]]") or none when the
directive is unclosed. -/
def takeUntilClose : Str → Option (Str × Str)
  | [] => none
  | ']' :: ']' :: rest => some ([], rest)
  | c :: rest =>
    match takeUntilClose rest with
    | some (v, r) => some (c :: v, r)
    | none => none

/-- Modelled from the spec: the two directive openers. Returns the
remainder after "[[remember:" or "[[state:". -/
def matchTag (l : Str) : Option Str :=
  if l.take 11 = "[[remember:".toList then some (l.drop 11)
  else if l.take 8 = "[[state:".toList then some (l.drop 8)
  else none

/-- Modelled from the spec: parse one directive at the head of the text:
opener, optional whitespace, identifier key, "=", value text up to "]]"
(trimmed). Malformed directives (no key, missing "=", unclosed) do not
match. Returns (key, trimmed value, rest after directive). -/
def parseDirective (l : Str) : Option (Str × Str × Str) :=
  match matchTag l with
  | none => none
  | some rest =>
    let r1 := rest.dropWhile Char.isWhitespace
    let key := r1.takeWhile isIdentChar
    let r2 := r1.dropWhile isIdentChar
    if key = [] then none
    else
      match r2 with
      | '=' :: r3 =>
        match takeUntilClose r3 with
        | some (v, after) => some (key, stripStr v, after)
        | none => none
      | _ => none

/-- Modelled from the spec: one left-to-right scan collecting matches and
building the cleaned text with matched spans removed. Fuel-driven; each
step consumes at least one character, so fuel = length suffices. -/
def scanAux : Nat → Str → Str × List (Str × Str)
  | 0, l => (l, [])
  | _ + 1, [] => ([], [])
  | fuel + 1, c :: rest =>
    match parseDirective (c :: rest) with
    | some (k, v, after) =>
      let p := scanAux fuel after
      (p.1, (k, v) :: p.2)
    | none =>
      let p := scanAux fuel rest
      (c :: p.1, p.2)

/-- Set StickyMap[key] = value with overwrite semantics, preserving
insertion order of first appearance. -/
def setKey : List (Str × Str) → Str → Str → List (Str × Str)
  | [], k, v => [(k, v)]
  | kv :: rest, k, v =>
    if kv.1 = k then (kv.1, v) :: rest else kv :: setKey rest k v

/-- Modelled from the spec (section 4.1): `update(sessionId, rawText)`:
scan for directives, apply each match to the map in sequence (last match
for a key wins), return the cleaned text, trimmed, and the new map. -/
def stickyUpdate (m : List (Str × Str)) (raw : Str) : Str × List (Str × Str) :=
  let p := scanAux raw.length raw
  (stripStr p.1, p.2.foldl (fun acc kv => setKey acc kv.1 kv.2) m)

/-- Modelled from the spec (section 4.1): `render(sessionId)`:
"" when the map is empty, else "STATE: k1=v1; k2=v2; ..." in stored order. -/
def stickyRender (m : List (Str × Str)) : Str :=
  if m = [] then []
  else "STATE: ".toList ++ List.intercalate "; ".toList (m.map (fun kv => kv.1 ++ "=".toList ++ kv.2))

/-! ## PromptAssembler global trim

Modelled from the spec (section 4.4 step 5): neither file under src/
contains this loop (the spec flags it as present in "one source variant"
that is not part of src/). While the total character length exceeds
`max(charBudget, 2000)` and more than 3 messages remain, the message at
index 2 is removed. -/

def eraseAt2 : List Msg → List Msg
  | a :: b :: _ :: rest => a :: b :: rest
  | l => l

theorem eraseAt2_length_lt (l : List Msg) (h : 3 < l.length) :
    (eraseAt2 l).length < l.length := by
  match l with
  | [] => simp at h
  | [a] => simp at h
  | [a, b] => simp at h
  | a :: b :: c :: rest => simp [eraseAt2]

def globalTrim (B : Nat) (msgs : List Msg) : List Msg :=
  if h : max B 2000 < totalChars msgs ∧ 3 < msgs.length then globalTrim B (eraseAt2 msgs)
  else msgs
termination_by msgs.length
decreasing_by exact eraseAt2_length_lt msgs h.2

/-! ## Role-alternation predicate (for the history invariant) -/

/-- The history shape invariant: even length, roles strictly alternating
user, assistant, user, assistant, ... starting with user. -/
def altUA : List Msg → Bool
  | [] => true
  | [_] => false
  | u :: a :: rest => (decide (u.role = userRole) && decide (a.role = assistantRole)) && altUA rest

/-! ## Helper lemmas -/

theorem drop_append_le {α : Type} (n : Nat) (l₁ l₂ : List α) (h : n ≤ l₁.length) :
    (l₁ ++ l₂).drop n = l₁.drop n ++ l₂ := by
  rw [List.drop_append_eq_append_drop, Nat.sub_eq_zero_of_le h, List.drop_zero]

theorem lastN_length {α : Type} (n : Nat) (l : List α) :
    (lastN n l).length = min n l.length := by
  simp only [lastN, List.length_drop]
  omega

theorem lastN_of_le {α : Type} (n : Nat) (l : List α) (h : l.length ≤ n) :
    lastN n l = l := by
  simp [lastN, Nat.sub_eq_zero_of_le h]

theorem pruneBudget_take (cap : Nat) : ∀ (t : Nat) (l : List Msg),
    ∃ k, pruneBudget cap t l = l.take k := by
  intro t l
  induction l generalizing t with
  | nil => exact ⟨0, rfl⟩
  | cons m rest ih =>
    by_cases h : cap < t + m.content.length
    · exact ⟨0, by simp [pruneBudget, h]⟩
    · obtain ⟨k, hk⟩ := ih (t + m.content.length)
      exact ⟨k + 1, by simp [pruneBudget, h, hk]⟩

theorem pruneBudget_total (cap : Nat) : ∀ (t : Nat) (l : List Msg), t ≤ cap →
    t + totalChars (pruneBudget cap t l) ≤ cap := by
  intro t l
  induction l generalizing t with
  | nil => intro h; simpa [pruneBudget, totalChars] using h
  | cons m rest ih =>
    intro h
    by_cases hc : cap < t + m.content.length
    · simpa [pruneBudget, hc, totalChars] using h
    · have hrec := ih (t + m.content.length) (by omega)
      simp only [pruneBudget, hc, if_false, totalChars, List.map_cons, List.sum_cons] at hrec ⊢
      omega

theorem pruneBudget_max (cap : Nat) : ∀ (t : Nat) (l : List Msg),
    pruneBudget cap t l = l ∨
      cap < t + totalChars (l.take ((pruneBudget cap t l).length + 1)) := by
  intro t l
  induction l generalizing t with
  | nil => exact Or.inl rfl
  | cons m rest ih =>
    by_cases hc : cap < t + m.content.length
    · right
      simp only [pruneBudget, hc, if_true, List.length_nil, Nat.zero_add, List.take_succ_cons,
        List.take_zero, totalChars, List.map_cons, List.map_nil, List.sum_cons, List.sum_nil]
      omega
    · rcases ih (t + m.content.length) with h | h
      · left
        simp [pruneBudget, hc, h]
      · right
        simp only [pruneBudget, hc, if_false, List.length_cons, List.take_succ_cons,
          totalChars, List.map_cons, List.sum_cons] at h ⊢
        omega

theorem altUA_even : ∀ l, altUA l = true → l.length % 2 = 0
  | [], _ => rfl
  | [_], h => by simp [altUA] at h
  | _ :: _ :: rest, h => by
    have h3 : altUA rest = true := by
      simp only [altUA, Bool.and_eq_true] at h
      exact h.2
    have := altUA_even rest h3
    simp only [List.length_cons]
    omega

theorem altUA_drop_two : ∀ l, altUA l = true → altUA (l.drop 2) = true
  | [], _ => rfl
  | [_], h => by simp [altUA] at h
  | _ :: _ :: rest, h => by
    simp only [altUA, Bool.and_eq_true] at h
    simpa using h.2

theorem altUA_drop_even : ∀ (k : Nat) (l : List Msg), altUA l = true →
    altUA (l.drop (2 * k)) = true := by
  intro k
  induction k with
  | zero => intro l h; simpa using h
  | succ k ih =>
    intro l h
    have h2 := altUA_drop_two l h
    have hd : l.drop (2 * (k + 1)) = (l.drop 2).drop (2 * k) := by
      rw [List.drop_drop]
      congr 1
      omega
    rw [hd]
    exact ih _ h2

theorem altUA_append_pair (u a : Str) : ∀ l, altUA l = true →
    altUA (l ++ [⟨userRole, u⟩, ⟨assistantRole, a⟩]) = true
  | [], _ => by simp [altUA]
  | [_], h => by simp [altUA] at h
  | x :: y :: rest, h => by
    simp only [altUA, Bool.and_eq_true, decide_eq_true_eq] at h
    simp only [List.cons_append, altUA, Bool.and_eq_true, decide_eq_true_eq]
    exact ⟨⟨h.1.1, h.1.2⟩, altUA_append_pair u a rest h.2⟩

theorem dequeAppend_snoc (l : List Msg) (m : Nat) (x : Msg) (hm : 1 ≤ m) :
    ∃ p, dequeAppend l m x = p ++ [x] := by
  simp only [dequeAppend]
  by_cases h : m < (l ++ [x]).length
  · refine ⟨l.drop ((l ++ [x]).length - m), ?_⟩
    rw [if_pos h, drop_append_le]
    simp only [List.length_append, List.length_cons, List.length_nil] at h ⊢
    omega
  · exact ⟨l, by rw [if_neg h]⟩

theorem dequeAppend_keeps_last (l : List Msg) (m : Nat) (x y : Msg) (hm : 2 ≤ m)
    (p : List Msg) (hl : l = p ++ [x]) :
    ∃ q, dequeAppend l m y = q ++ [x, y] := by
  subst hl
  simp only [dequeAppend]
  have hass : (p ++ [x]) ++ [y] = p ++ [x, y] := by simp
  have hlen : ((p ++ [x]) ++ [y]).length = p.length + 2 := by simp
  by_cases h : m < ((p ++ [x]) ++ [y]).length
  · refine ⟨p.drop (p.length + 2 - m), ?_⟩
    rw [if_pos h, hlen, hass, drop_append_le _ p [x, y] (by omega)]
  · exact ⟨p, by rw [if_neg h, hass]⟩

theorem dequeAppend_pair_alt (l : List Msg) (T : Nat) (u a : Str)
    (hAlt : altUA l = true) (hLen : l.length ≤ T) (hT2 : 2 ≤ T) (hTe : T % 2 = 0) :
    altUA (dequeAppend (dequeAppend l T ⟨userRole, u⟩) T ⟨assistantRole, a⟩) = true ∧
    (dequeAppend (dequeAppend l T ⟨userRole, u⟩) T ⟨assistantRole, a⟩).length ≤ T := by
  have hle : l.length % 2 = 0 := altUA_even l hAlt
  by_cases hfull : l.length = T
  · have hlen1 : (l ++ [(⟨userRole, u⟩ : Msg)]).length = T + 1 := by simp [hfull]
    have h3 : dequeAppend l T (⟨userRole, u⟩ : Msg) = l.drop 1 ++ [(⟨userRole, u⟩ : Msg)] := by
      simp only [dequeAppend]
      rw [if_pos (by rw [hlen1]; omega), hlen1]
      have h1 : T + 1 - T = 1 := by omega
      rw [h1, drop_append_le 1 l _ (by omega)]
    have hlen2 : ((l.drop 1 ++ [(⟨userRole, u⟩ : Msg)]) ++ [(⟨assistantRole, a⟩ : Msg)]).length
        = T + 1 := by
      simp only [List.length_append, List.length_drop, List.length_cons, List.length_nil]
      omega
    have h4 : dequeAppend (l.drop 1 ++ [(⟨userRole, u⟩ : Msg)]) T (⟨assistantRole, a⟩ : Msg) =
        l.drop 2 ++ [(⟨userRole, u⟩ : Msg), (⟨assistantRole, a⟩ : Msg)] := by
      simp only [dequeAppend]
      rw [if_pos (by rw [hlen2]; omega), hlen2]
      have h1 : T + 1 - T = 1 := by omega
      have hass : (l.drop 1 ++ [(⟨userRole, u⟩ : Msg)]) ++ [(⟨assistantRole, a⟩ : Msg)] =
          l.drop 1 ++ [(⟨userRole, u⟩ : Msg), (⟨assistantRole, a⟩ : Msg)] := by simp
      rw [h1, hass, drop_append_le 1 (l.drop 1) _ (by rw [List.length_drop]; omega)]
      rw [List.drop_drop]
    rw [h3, h4]
    refine ⟨altUA_append_pair u a _ (altUA_drop_two l hAlt), ?_⟩
    simp only [List.length_append, List.length_drop, List.length_cons, List.length_nil]
    omega
  · have hlt : l.length + 2 ≤ T := by omega
    have h3 : dequeAppend l T (⟨userRole, u⟩ : Msg) = l ++ [(⟨userRole, u⟩ : Msg)] := by
      simp only [dequeAppend]
      rw [if_neg (by simp only [List.length_append, List.length_cons, List.length_nil]; omega)]
    have h4 : dequeAppend (l ++ [(⟨userRole, u⟩ : Msg)]) T (⟨assistantRole, a⟩ : Msg) =
        l ++ [(⟨userRole, u⟩ : Msg), (⟨assistantRole, a⟩ : Msg)] := by
      simp only [dequeAppend]
      rw [if_neg (by simp only [List.length_append, List.length_cons, List.length_nil]; omega)]
      simp
    rw [h3, h4]
    refine ⟨altUA_append_pair u a _ hAlt, ?_⟩
    simp only [List.length_append, List.length_cons, List.length_nil]
    omega

theorem pushHistory_eq (dq : List Msg) (dqMaxlen turns : Nat) (u a : Str)
    (hLen : dq.length ≤ dqMaxlen) :
    pushHistory dq dqMaxlen u a turns =
      (dequeAppend (dequeAppend (lastN (2 * max 1 turns) dq) (2 * max 1 turns) ⟨userRole, u⟩)
        (2 * max 1 turns) ⟨assistantRole, a⟩, 2 * max 1 turns) := by
  simp only [pushHistory]
  by_cases hres : dqMaxlen = 2 * max 1 turns
  · rw [if_neg (by simp [hres])]
    rw [lastN_of_le _ _ (by omega)]
  · rw [if_pos hres]

theorem pushHistory_last_two (dq : List Msg) (dqMaxlen turns : Nat) (u a : Str) :
    ∃ pre, (pushHistory dq dqMaxlen u a turns).1 =
      pre ++ [⟨userRole, u⟩, ⟨assistantRole, a⟩] := by
  have hT1 : 1 ≤ max 1 turns := le_max_left 1 turns
  simp only [pushHistory]
  obtain ⟨p, hp⟩ := dequeAppend_snoc (if dqMaxlen ≠ 2 * max 1 turns then lastN (2 * max 1 turns) dq
    else dq) (2 * max 1 turns) ⟨userRole, u⟩ (by omega)
  exact dequeAppend_keeps_last _ _ _ _ (by omega) p hp

theorem clip_length_le (s : Str) : (clip s 900).length ≤ 900 := by
  simp only [clip]
  by_cases h : 900 < s.length
  · rw [if_pos h]
    simp only [List.length_append]
    rw [List.length_take]
    have h3 : ("...".toList).length = 3 := rfl
    omega
  · rw [if_neg h]
    omega

theorem globalTrim_le_aux (B : Nat) : ∀ (n : Nat) (msgs : List Msg), msgs.length ≤ n →
    totalChars (globalTrim B msgs) ≤ max B 2000 ∨ (globalTrim B msgs).length ≤ 3 := by
  intro n
  induction n with
  | zero =>
    intro msgs h
    unfold globalTrim
    split
    · omega
    · rename_i hcond
      rcases Decidable.not_and_iff_or_not.mp hcond with h2 | h2 <;> omega
  | succ n ih =>
    intro msgs h
    unfold globalTrim
    split
    · rename_i hcond
      exact ih (eraseAt2 msgs) (by have := eraseAt2_length_lt msgs hcond.2; omega)
    · rename_i hcond
      rcases Decidable.not_and_iff_or_not.mp hcond with h2 | h2 <;> omega

theorem setKey_lookup : ∀ (m : List (Str × Str)) (k v : Str),
    lookupA (setKey m k v) k = some v := by
  intro m k v
  induction m with
  | nil => simp [setKey, lookupA]
  | cons kv rest ih =>
    by_cases h : kv.1 = k
    · simp [setKey, h, lookupA]
    · simp [setKey, h, lookupA, ih]

/-! ## Concrete inputs used by counterexamples and witnesses -/

def oldMsg : Msg := ⟨userRole, "aaa".toList⟩

def newMsg : Msg := ⟨assistantRole, "aaaa".toList⟩

def coldState : MemState := ⟨[], [⟨userRole, "a".toList⟩, ⟨assistantRole, "b".toList⟩]⟩

def envEx : Env := ⟨[("soji".toList, ProfileSrc.pstr "You are Soji.".toList)], [], []⟩

def reqKill : ReqCtx := ⟨PyVal.vstr "false".toList, some "soji".toList, none, []⟩

def reqProfile : ReqCtx := ⟨PyVal.vnone, some "soji".toList, none, []⟩

/-! ## Claim theorems -/

/-- C1 counterexample: on a simulated upstream timeout the `chat` handler of
src/app.py does NOT respond with a structured UpstreamError and does NOT
leave the user's turn in history: it answers ok=true in echo mode and the
history is left completely empty, so the user's message "hi" is absent. -/
theorem chat_upstream_failure_cex :
    (chatCore "hi".toList [] (.failure "Timeout".toList) [] 12 6).2.1 = [] ∧
    (chatCore "hi".toList [] (.failure "Timeout".toList) [] 12 6).1.mode = "echo".toList ∧
    (chatCore "hi".toList [] (.failure "Timeout".toList) [] 12 6).1.ok = true :=
  ⟨rfl, rfl, rfl⟩

/-- C1 amended: when the upstream call fails, the orchestrator responds with
an ok=true echo fallback carrying the upstream error string in the metadata,
and the history is left entirely unchanged: neither the user's turn nor an
assistant turn is appended (history is only updated after upstream success). -/
theorem chat_upstream_failure (message speaker e : Str) (dq : List Msg)
    (dqMaxlen turns : Nat) :
    chatCore message speaker (.failure e) dq dqMaxlen turns =
      (⟨true, clip (echoReply speaker message) 900, "echo".toList, some e⟩, dq, dqMaxlen) := rfl

/-- C2 (StickyStore modelled from the spec, absent from src/):
update("[[remember: mood=happy]] hi") returns "hi" and afterwards render
produces "STATE: mood=happy"; two directives for the same key apply in
sequence so the last one wins; and setting a key always overwrites, i.e.
the stored value for the key is the one last set. -/
theorem sticky_update_render :
    (stickyUpdate [] "[[remember: mood=happy]] hi".toList).1 = "hi".toList ∧
    stickyRender (stickyUpdate [] "[[remember: mood=happy]] hi".toList).2 =
      "STATE: mood=happy".toList ∧
    (stickyUpdate [] "[[state: k=a]] [[remember: k=b]] yo".toList).2 =
      [("k".toList, "b".toList)] ∧
    (∀ (m : List (Str × Str)) (k v : Str), lookupA (setKey m k v) k = some v) :=
  ⟨by decide, by decide, by decide, setKey_lookup⟩

/-- C3 counterexample: with window [oldMsg (3 chars), newMsg (4 chars)] and
charBudget 5, `_apply_memory` keeps the OLDEST turn and drops the newest,
whereas the claim's "truncated from the oldest end" semantics (recentSpec)
keeps the newest turn; the two disagree. -/
theorem recent_keeps_oldest_cex :
    applyMemory [] [oldMsg, newMsg] 2 5 true = [oldMsg] ∧
    recentSpec [oldMsg, newMsg] 2 5 = [newMsg] ∧
    applyMemory [] [oldMsg, newMsg] 2 5 true ≠ recentSpec [oldMsg, newMsg] 2 5 :=
  ⟨by decide, by decide, by decide⟩

/-- C3 amended: `recent` bounds the history by count min(available, 2*turns)
first, and then truncates that window from the NEWEST end: the result is the
longest chronological prefix of the window whose cumulative character length
does not exceed charBudget (so it is in original order, has at most 2*turns
entries, fits the budget, and is maximal among fitting prefixes). -/
theorem recent_budget_window (msgs dq : List Msg) (turns cap : Nat) :
    applyMemory msgs dq turns cap true = recentMem dq turns cap ++ msgs ∧
    (∃ k, recentMem dq turns cap = (lastN (min dq.length (2 * turns)) dq).take k) ∧
    totalChars (recentMem dq turns cap) ≤ cap ∧
    (recentMem dq turns cap).length ≤ 2 * turns ∧
    (recentMem dq turns cap = lastN (min dq.length (2 * turns)) dq ∨
      cap < totalChars ((lastN (min dq.length (2 * turns)) dq).take
        ((recentMem dq turns cap).length + 1))) := by
  refine ⟨rfl, pruneBudget_take cap 0 _, ?_, ?_, ?_⟩
  · have h := pruneBudget_total cap 0 (lastN (min dq.length (2 * turns)) dq) (Nat.zero_le cap)
    simpa [recentMem] using h
  · obtain ⟨k, hk⟩ := pruneBudget_take cap 0 (lastN (min dq.length (2 * turns)) dq)
    have h1 : (recentMem dq turns cap).length = ((lastN (min dq.length (2 * turns)) dq).take k).length := by
      rw [recentMem, hk]
    rw [h1, List.length_take, lastN_length]
    omega
  · have h := pruneBudget_max cap 0 (lastN (min dq.length (2 * turns)) dq)
    simpa [recentMem] using h

/-- C4, code bug witnessed at the failing input: for a session whose rows
(oldest to newest) have content lengths [3, 20, 3], with turns=2 (keep=4)
and char budget 10, `_db_trim_to_limits` keeps the oldest and newest rows
and DELETES the middle row, so a deleted row is newer than a retained row —
contradicting the claim and the function's own docstring ("removendo os
mais antigos"). Flags are chronological: true = kept, false = deleted. -/
theorem dbTrim_deletes_newer_row :
    dbTrimToLimits [3, 20, 3] 2 10 = [true, false, true] := by decide

/-- C5 (global trim modelled from the spec, absent from src/): the trim loop
"while total chars > max(charBudget, 2000) and more than 3 messages remain,
remove the message at index 2" always terminates in a state whose total
character length is within max(charBudget, 2000) unless fewer than 4
messages remain. -/
theorem globalTrim_floor (B : Nat) (msgs : List Msg) :
    totalChars (globalTrim B msgs) ≤ max B 2000 ∨ (globalTrim B msgs).length ≤ 3 :=
  globalTrim_le_aux B msgs.length msgs le_rfl

/-- C6 counterexample: cold start (empty cache) with persistence enabled and
a non-empty durable store: `_apply_memory` DOES read turns from the durable
store (the result is non-empty) but does NOT warm the in-memory cache — the
state, cache included, is returned unchanged, so the next call re-reads the
durable store. -/
theorem coldstart_no_warm_cex :
    coldState.cache = [] ∧
    (applyMemoryCF [] coldState 2 3500 true true).1 ≠ [] ∧
    (applyMemoryCF [] coldState 2 3500 true true).2 = coldState ∧
    (applyMemoryCF [] coldState 2 3500 true true).2.cache = [] :=
  ⟨rfl, by decide, rfl, rfl⟩

/-- C6 amended: on a cold start (empty in-memory cache, persistence on),
`recent` computes its result from the durable store, but it does not warm
the cache: the state is returned unchanged, so subsequent calls with a
still-empty cache read the durable store again. -/
theorem coldstart_reads_db (messages : List Msg) (st : MemState) (turns cap : Nat)
    (hcold : st.cache = []) :
    (applyMemoryCF messages st turns cap true true).2 = st ∧
    (applyMemoryCF messages st turns cap true true).1 =
      pruneBudget cap 0 (lastN (min (dbFetchRecent st.db turns cap).length (2 * turns))
        (dbFetchRecent st.db turns cap)) ++ messages := by
  constructor
  · simp [applyMemoryCF]
  · simp [applyMemoryCF, hcold]

theorem coldstart_reads_db_witness :
    (applyMemoryCF [] coldState 2 3500 true true).2 = coldState ∧
    (applyMemoryCF [] coldState 2 3500 true true).1 =
      pruneBudget 3500 0 (lastN (min (dbFetchRecent coldState.db 2 3500).length (2 * 2))
        (dbFetchRecent coldState.db 2 3500)) ++ [] :=
  coldstart_reads_db [] coldState 2 3500 rfl

/-- C7: whenever the caller's kill-switch disables system-prompt injection
(use_system is the boolean false, or one of the strings "0", "false", "off",
"no", or the query parameter sys=off), `_resolve_profile` returns ("", {}),
regardless of any profile configured or requested. -/
theorem resolve_kill_switch (env : Env) (req : ReqCtx)
    (h : req.useSystem = PyVal.vbool false ∨
      (∃ s, req.useSystem = PyVal.vstr s ∧
        (s = "0".toList ∨ s = "false".toList ∨ s = "off".toList ∨ s = "no".toList)) ∨
      req.argSys = "off".toList) :
    resolveProfile env req = ([], []) := by
  rcases h with h | ⟨s, hs, hv⟩ | h
  · unfold resolveProfile
    rw [h]
    simp [isFalsyStr]
  · have hf : isFalsyStr req.useSystem = true := by
      rw [hs]
      rcases hv with rfl | rfl | rfl | rfl <;> decide
    unfold resolveProfile
    rw [hf]
    simp
  · unfold resolveProfile
    by_cases hf : isFalsyStr req.useSystem = true
    · rw [hf]
      simp
    · have hoff : lowerStr req.argSys = "off".toList := by rw [h]; decide
      rw [Bool.not_eq_true] at hf
      simp [hf, hoff]

theorem resolve_kill_switch_witness : resolveProfile envEx reqKill = ([], []) :=
  resolve_kill_switch envEx reqKill
    (Or.inr (Or.inl ⟨"false".toList, rfl, Or.inr (Or.inl rfl)⟩))

/-- C8: with the kill-switch off, `_resolve_profile` picks the configuration
by priority — the requested key when it names a known profile, else the
server default profile when known, else the MARS_SYSTEM fallback when
configured, else empty — and an unknown requested key never errors: it
silently falls through to the next tier. -/
theorem resolve_priority (env : Env) (req : ReqCtx)
    (h1 : isFalsyStr req.useSystem = false)
    (h2 : req.useSystem ≠ PyVal.vbool false)
    (h3 : lowerStr req.argSys ≠ "off".toList) :
    (∀ src, stripStr (firstTruthy req.payloadProfile req.argProfile) ≠ [] →
        lookupA env.PROFILE_MAP (stripStr (firstTruthy req.payloadProfile req.argProfile)) =
          some src →
        resolveProfile env req = renderSource src) ∧
    ((stripStr (firstTruthy req.payloadProfile req.argProfile) = [] ∨
        lookupA env.PROFILE_MAP (stripStr (firstTruthy req.payloadProfile req.argProfile)) =
          none) →
      (∀ src, env.DEFAULT_PROFILE ≠ [] →
          lookupA env.PROFILE_MAP env.DEFAULT_PROFILE = some src →
          resolveProfile env req = renderSource src) ∧
      ((env.DEFAULT_PROFILE = [] ∨ lookupA env.PROFILE_MAP env.DEFAULT_PROFILE = none) →
        (env.MARS_SYSTEM ≠ [] → resolveProfile env req = (env.MARS_SYSTEM, [])) ∧
        (env.MARS_SYSTEM = [] → resolveProfile env req = ([], [])))) := by
  have hres : ∀ r, r = resolveProfile env req →
      r = (match (if stripStr (firstTruthy req.payloadProfile req.argProfile) ≠ [] then
            lookupA env.PROFILE_MAP (stripStr (firstTruthy req.payloadProfile req.argProfile))
          else none) with
        | some src => renderSource src
        | none =>
          match (if env.DEFAULT_PROFILE ≠ [] then lookupA env.PROFILE_MAP env.DEFAULT_PROFILE
                 else none) with
          | some src => renderSource src
          | none => if env.MARS_SYSTEM ≠ [] then (env.MARS_SYSTEM, []) else ([], [])) := by
    intro r hr
    subst hr
    simp only [resolveProfile]
    rw [if_neg (by simp [h1]), if_neg (by push_neg; exact ⟨h2, h3⟩)]
  have heq := hres (resolveProfile env req) rfl
  refine ⟨?_, ?_⟩
  · intro src hk hl
    rw [heq, if_pos hk, hl]
  · intro hko
    have hfk : (if stripStr (firstTruthy req.payloadProfile req.argProfile) ≠ [] then
        lookupA env.PROFILE_MAP (stripStr (firstTruthy req.payloadProfile req.argProfile))
      else none) = none := by
      rcases hko with h | h
      · rw [if_neg (by simp [h])]
      · by_cases hk : stripStr (firstTruthy req.payloadProfile req.argProfile) = []
        · rw [if_neg (by simp [hk])]
        · rw [if_pos hk, h]
    refine ⟨?_, ?_⟩
    · intro src hd hl
      rw [heq, hfk, if_pos hd, hl]
    · intro hdo
      have hfd : (if env.DEFAULT_PROFILE ≠ [] then lookupA env.PROFILE_MAP env.DEFAULT_PROFILE
          else none) = none := by
        rcases hdo with h | h
        · rw [if_neg (by simp [h])]
        · by_cases hd : env.DEFAULT_PROFILE = []
          · rw [if_neg (by simp [hd])]
          · rw [if_pos hd, h]
      refine ⟨?_, ?_⟩
      · intro hm
        rw [heq, hfk, hfd, if_pos hm]
      · intro hm
        rw [heq, hfk, hfd, if_neg (by simp [hm])]

theorem resolve_priority_witness :
    resolveProfile envEx reqProfile = renderSource (ProfileSrc.pstr "You are Soji.".toList) :=
  (resolve_priority envEx reqProfile rfl (by decide) (by decide)).1
    (ProfileSrc.pstr "You are Soji.".toList) (by decide) (by decide)

/-- C9: on upstream success the response reply is exactly the clipped
upstream reply, whose length never exceeds 900 (replies longer than 900 are
cut to their first 897 characters plus "..."), and it is this clipped text,
not the raw upstream reply, that is stored as the assistant turn (the
history now ends with the user turn followed by the clipped assistant turn). -/
theorem chat_reply_clipped (message speaker r : Str) (dq : List Msg) (dqMaxlen turns : Nat) :
    (chatCore message speaker (.success r) dq dqMaxlen turns).1.reply = clip r 900 ∧
    (chatCore message speaker (.success r) dq dqMaxlen turns).1.reply.length ≤ 900 ∧
    clip r 900 = (if 900 < r.length then r.take 897 ++ "...".toList else r) ∧
    (∃ pre, (chatCore message speaker (.success r) dq dqMaxlen turns).2.1 =
      pre ++ [⟨userRole, message⟩, ⟨assistantRole, clip r 900⟩]) :=
  ⟨rfl, clip_length_le r, rfl, pushHistory_last_two dq dqMaxlen turns message (clip r 900)⟩

/-- C10: the in-memory history invariant — even length with roles strictly
alternating user, assistant, ... starting with user, and size within the
deque capacity — is preserved by every `_push_history`: the new capacity is
the even number 2*max(1, turns) (a shrink keeps the most recent entries),
and the push appends exactly one user+assistant pair, which the new history
ends with. -/
theorem pushHistory_alternating (dq : List Msg) (dqMaxlen turns : Nat) (u a : Str)
    (hAlt : altUA dq = true) (hLen : dq.length ≤ dqMaxlen) :
    altUA (pushHistory dq dqMaxlen u a turns).1 = true ∧
    (pushHistory dq dqMaxlen u a turns).1.length ≤ (pushHistory dq dqMaxlen u a turns).2 ∧
    (pushHistory dq dqMaxlen u a turns).2 = 2 * max 1 turns ∧
    (pushHistory dq dqMaxlen u a turns).2 % 2 = 0 ∧
    (∃ pre, (pushHistory dq dqMaxlen u a turns).1 =
      pre ++ [⟨userRole, u⟩, ⟨assistantRole, a⟩]) := by
  have hT1 : 1 ≤ max 1 turns := le_max_left 1 turns
  have heq := pushHistory_eq dq dqMaxlen turns u a hLen
  have hw : altUA (lastN (2 * max 1 turns) dq) = true := by
    have hLe := altUA_even dq hAlt
    obtain ⟨k, hk⟩ : ∃ k, dq.length - 2 * max 1 turns = 2 * k :=
      ⟨(dq.length - 2 * max 1 turns) / 2, by omega⟩
    simp only [lastN]
    rw [hk]
    exact altUA_drop_even k dq hAlt
  have hwlen : (lastN (2 * max 1 turns) dq).length ≤ 2 * max 1 turns := by
    rw [lastN_length]
    omega
  have hmain := dequeAppend_pair_alt (lastN (2 * max 1 turns) dq) (2 * max 1 turns) u a
    hw hwlen (by omega) (by omega)
  refine ⟨?_, ?_, ?_, ?_, pushHistory_last_two dq dqMaxlen turns u a⟩
  · rw [heq]
    exact hmain.1
  · rw [heq]
    exact hmain.2
  · rw [heq]
  · rw [heq]
    omega

theorem pushHistory_alternating_witness :
    altUA (pushHistory [] 12 "hi".toList "yo".toList 6).1 = true ∧
    (pushHistory [] 12 "hi".toList "yo".toList 6).1.length ≤
      (pushHistory [] 12 "hi".toList "yo".toList 6).2 ∧
    (pushHistory [] 12 "hi".toList "yo".toList 6).2 = 2 * max 1 6 ∧
    (pushHistory [] 12 "hi".toList "yo".toList 6).2 % 2 = 0 ∧
    (∃ pre, (pushHistory [] 12 "hi".toList "yo".toList 6).1 =
      pre ++ [⟨userRole, "hi".toList⟩, ⟨assistantRole, "yo".toList⟩]) :=
  pushHistory_alternating [] 12 6 "hi".toList "yo".toList rfl (by decide)
